import Mathlib

/-!
Verification of the `rurl` command-line HTTP tool (`src/main.rs`): the
request-item mini-language parser (`RequestItem::from_str`), the request
assembler (headers, JSON/Form bodies, URI normalization) and the response
start-line renderer.  Strings are modelled as `List Char`; the filesystem
read primitive used by file indirection is an explicit parameter
`fs : List Char → Option (List Char)` (`none` models a file that cannot be
opened or read as UTF-8 text).
-/

namespace Rurl

/-- The backslash character (used by the parser's escape rule). -/
def bslash : Char := Char.ofNat 92

/-- The newline character (the regex metacharacter `.` does not match it). -/
def nl : Char := Char.ofNat 10

/-- The helper `matchPrefix p l` returns the remainder of `l` after the prefix `p`,
when `p` is a prefix of `l`. -/
def matchPrefix : List Char → List Char → Option (List Char)
  | [], rest => some rest
  | _ :: _, [] => none
  | p :: ps, c :: cs => if c = p then matchPrefix ps cs else none

/-- UTF-8 encoding of one character as a byte list (values below 256). -/
def utf8Bytes (c : Char) : List Nat :=
  let n := c.toNat
  if n < 0x80 then [n]
  else if n < 0x800 then [0xC0 + n / 64, 0x80 + n % 64]
  else if n < 0x10000 then
    [0xE0 + n / 4096, 0x80 + (n / 64) % 64, 0x80 + n % 64]
  else
    [0xF0 + n / 0x40000, 0x80 + (n / 4096) % 64, 0x80 + (n / 64) % 64, 0x80 + n % 64]

/-- Byte length of a string under UTF-8 (Rust's `String::len`). -/
def utf8Length (s : List Char) : Nat :=
  (s.map (fun c => (utf8Bytes c).length)).sum

/-- Uppercase hexadecimal digit (used by percent-encoding). -/
def hexDigitUpper (n : Nat) : Char := "0123456789ABCDEF".toList.getD n '0'

/-- Lowercase hexadecimal digit (used by JSON `\u00XX` escapes). -/
def hexDigitLower (n : Nat) : Char := "0123456789abcdef".toList.getD n '0'

/-! ## Model of the `json` crate (json-rust), as used by the tool

The tool calls `json::parse`, `json::stringify` and `JsonValue::dump` and
indexes `JsonValue` objects by string keys.  Numbers are modelled as
integers (no claim involves fractional or exponent literals). -/

/-- JSON values, mirroring the `json` crate's `JsonValue` (the crate's
`Short` and `String` constructors are merged into `Str`, which preserves
their shared semantics). -/
inductive JsonValue where
  | Null : JsonValue
  | Boolean : Bool → JsonValue
  | Number : Int → JsonValue
  | Str : List Char → JsonValue
  | Arr : List JsonValue → JsonValue
  | Object : List (List Char × JsonValue) → JsonValue
deriving Repr

namespace Json

/-- JSON string escaping for one character, as in the crate's code
generator: `"` and backslash, the named control escapes, `\u00XX` for the
remaining control characters, everything else verbatim. -/
def escapeChar (c : Char) : List Char :=
  if c = '"' then [bslash, '"']
  else if c = bslash then [bslash, bslash]
  else if c = Char.ofNat 8 then [bslash, 'b']
  else if c = Char.ofNat 12 then [bslash, 'f']
  else if c = nl then [bslash, 'n']
  else if c = Char.ofNat 13 then [bslash, 'r']
  else if c = Char.ofNat 9 then [bslash, 't']
  else if c.toNat < 32 then
    [bslash, 'u', '0', '0', hexDigitLower (c.toNat / 16), hexDigitLower (c.toNat % 16)]
  else [c]

/-- JSON string escaping of a whole string. -/
def escapeStr (s : List Char) : List Char := (s.map escapeChar).flatten

/-- Decimal rendering of an integer. -/
def intToChars (n : Int) : List Char := (toString n).toList

/-- Decimal rendering of a natural number. -/
def natToChars (n : Nat) : List Char := (toString n).toList

mutual

/-- Compact serialization (`JsonValue::dump`): no whitespace, string
escaping as above. -/
def dump : JsonValue → List Char
  | .Null => "null".toList
  | .Boolean true => "true".toList
  | .Boolean false => "false".toList
  | .Number n => intToChars n
  | .Str s => '"' :: (escapeStr s ++ ['"'])
  | .Arr xs => '[' :: (dumpElems xs ++ [']'])
  | .Object ms => '{' :: (dumpMembers ms ++ ['}'])

/-- Comma-separated serialization of array elements. -/
def dumpElems : List JsonValue → List Char
  | [] => []
  | [x] => dump x
  | x :: y :: rest => dump x ++ ',' :: dumpElems (y :: rest)

/-- Comma-separated serialization of object members. -/
def dumpMembers : List (List Char × JsonValue) → List Char
  | [] => []
  | [(k, v)] => '"' :: (escapeStr k ++ '"' :: ':' :: dump v)
  | (k, v) :: m :: rest =>
    ('"' :: (escapeStr k ++ '"' :: ':' :: dump v)) ++ ',' :: dumpMembers (m :: rest)

end

/-- Model of `json::stringify` applied to a plain string value. -/
def stringifyStr (s : List Char) : List Char := dump (.Str s)

/-- JSON whitespace. -/
def isWs (c : Char) : Bool := c = ' ' ∨ c = Char.ofNat 9 ∨ c = nl ∨ c = Char.ofNat 13

/-- Skip leading JSON whitespace. -/
def skipWs (l : List Char) : List Char := l.dropWhile isWs

/-- Value of one hexadecimal digit. -/
def hexVal (c : Char) : Option Nat :=
  if '0' ≤ c ∧ c ≤ '9' then some (c.toNat - '0'.toNat)
  else if 'a' ≤ c ∧ c ≤ 'f' then some (c.toNat - 'a'.toNat + 10)
  else if 'A' ≤ c ∧ c ≤ 'F' then some (c.toNat - 'A'.toNat + 10)
  else none

/-- Decoding of a simple (non-`\u`) escape sequence. -/
def unescapeChar (c : Char) : Option Char :=
  if c = '"' then some '"'
  else if c = bslash then some bslash
  else if c = '/' then some '/'
  else if c = 'b' then some (Char.ofNat 8)
  else if c = 'f' then some (Char.ofNat 12)
  else if c = 'n' then some nl
  else if c = 'r' then some (Char.ofNat 13)
  else if c = 't' then some (Char.ofNat 9)
  else none

/-- Read the characters of a JSON string literal after the opening quote,
up to and including the closing quote; returns the decoded characters and
the remaining input. -/
def stringChars : List Char → Option (List Char × List Char)
  | [] => none
  | c :: rest =>
    if c = '"' then some ([], rest)
    else if c = bslash then
      match rest with
      | [] => none
      | e :: rest2 =>
        if e = 'u' then
          match rest2 with
          | h1 :: h2 :: h3 :: h4 :: rest3 =>
            match hexVal h1, hexVal h2, hexVal h3, hexVal h4 with
            | some a, some b, some c2, some d =>
              (stringChars rest3).map
                (fun p => (Char.ofNat (((a * 16 + b) * 16 + c2) * 16 + d) :: p.1, p.2))
            | _, _, _, _ => none
          | _ => none
        else
          match unescapeChar e with
          | some u => (stringChars rest2).map (fun p => (u :: p.1, p.2))
          | none => none
    else (stringChars rest).map (fun p => (c :: p.1, p.2))

/-- Digits of a decimal literal folded into a natural number. -/
def digitsToNat (ds : List Char) : Nat :=
  ds.foldl (fun a c => a * 10 + (c.toNat - '0'.toNat)) 0

/-- Read an unsigned decimal number; fails on empty digit runs. -/
def numberChars (l : List Char) : Option (Nat × List Char) :=
  let ds := l.takeWhile (fun c => c.isDigit)
  if ds = [] then none else some (digitsToNat ds, l.dropWhile (fun c => c.isDigit))

mutual

/-- Recursive-descent JSON value reader (fuelled; the fuel is spent only
when descending into arrays and objects, and callers supply one unit per
input character, which always suffices). -/
def readValue : Nat → List Char → Option (JsonValue × List Char)
  | 0, _ => none
  | fuel + 1, l =>
    match skipWs l with
    | [] => none
    | c :: rest =>
      if c = '"' then (stringChars rest).map (fun p => (.Str p.1, p.2))
      else if c = '{' then
        match skipWs rest with
        | '}' :: r2 => some (.Object [], r2)
        | _ => (readMembers fuel rest).map (fun p => (.Object p.1, p.2))
      else if c = '[' then
        match skipWs rest with
        | ']' :: r2 => some (.Arr [], r2)
        | _ => (readElems fuel rest).map (fun p => (.Arr p.1, p.2))
      else if c = 't' then (matchPrefix "rue".toList rest).map (fun r => (.Boolean true, r))
      else if c = 'f' then (matchPrefix "alse".toList rest).map (fun r => (.Boolean false, r))
      else if c = 'n' then (matchPrefix "ull".toList rest).map (fun r => (.Null, r))
      else if c = '-' then
        (numberChars rest).map (fun p => (.Number (-(p.1 : Int)), p.2))
      else if c.isDigit then
        (numberChars (c :: rest)).map (fun p => (.Number (p.1 : Int), p.2))
      else none

/-- Reader for the members of a non-empty JSON object body. -/
def readMembers : Nat → List Char → Option (List (List Char × JsonValue) × List Char)
  | 0, _ => none
  | fuel + 1, l =>
    match skipWs l with
    | '"' :: rest =>
      match stringChars rest with
      | none => none
      | some (k, r1) =>
        match skipWs r1 with
        | ':' :: r2 =>
          match readValue fuel r2 with
          | none => none
          | some (v, r3) =>
            match skipWs r3 with
            | ',' :: r4 => (readMembers fuel r4).map (fun p => ((k, v) :: p.1, p.2))
            | '}' :: r4 => some ([(k, v)], r4)
            | _ => none
        | _ => none
    | _ => none

/-- Reader for the elements of a non-empty JSON array body. -/
def readElems : Nat → List Char → Option (List JsonValue × List Char)
  | 0, _ => none
  | fuel + 1, l =>
    match readValue fuel l with
    | none => none
    | some (v, r1) =>
      match skipWs r1 with
      | ',' :: r2 => (readElems fuel r2).map (fun p => (v :: p.1, p.2))
      | ']' :: r2 => some ([v], r2)
      | _ => none

end

/-- Model of `json::parse`: read one value and require only whitespace after it. -/
def parse (l : List Char) : Option JsonValue :=
  match readValue (l.length + 1) l with
  | some (v, rest) => if skipWs rest = [] then some v else none
  | none => none

/-- Model of `Object::insert`: replace the value in place when the key exists,
otherwise append a new member. -/
def objInsert (k : List Char) (v : JsonValue) :
    List (List Char × JsonValue) → List (List Char × JsonValue)
  | [] => [(k, v)]
  | (k0, v0) :: rest => if k0 = k then (k0, v) :: rest else (k0, v0) :: objInsert k v rest

end Json

/-! ## Header validation (models `HeaderName::from_str` / `HeaderValue::from_str`
of the `http` crate) -/

/-- Characters valid in an HTTP header name (the `http` crate's table:
letters, digits, and `!#$%&'*+-.^_`|~`); uppercase letters are accepted
and normalized to lowercase. -/
def isHeaderNameChar (c : Char) : Bool :=
  c.isAlpha ∨ c.isDigit ∨ c ∈ "!#$%&'*+-.^_`|~".toList

/-- Model of `HeaderName::from_str`: non-empty, all characters from the valid set,
normalized to lowercase. -/
def headerNameOfChars (s : List Char) : Option (List Char) :=
  if s ≠ [] ∧ s.all isHeaderNameChar then some (s.map Char.toLower) else none

/-- Bytes valid in an HTTP header value (the `http` crate: horizontal tab,
or any byte that is at least 32 and not 127; multi-byte UTF-8 characters
only produce bytes of the permitted high range). -/
def isHeaderValueChar (c : Char) : Bool :=
  c = Char.ofNat 9 ∨ (32 ≤ c.toNat ∧ c.toNat ≠ 127)

/-- Model of `HeaderValue::from_str`. -/
def headerValueOfChars (s : List Char) : Option (List Char) :=
  if s.all isHeaderValueChar then some s else none

/-! ## Percent encoding (models `urlencoding::encode`) -/

/-- Bytes kept verbatim by `urlencoding::encode`: ASCII alphanumerics and
`-`, `_`, `.`, `~`. -/
def isUrlKeepByte (b : Nat) : Bool :=
  (65 ≤ b ∧ b ≤ 90) ∨ (97 ≤ b ∧ b ≤ 122) ∨ (48 ≤ b ∧ b ≤ 57) ∨
    b = 45 ∨ b = 95 ∨ b = 46 ∨ b = 126

/-- Percent-encode one byte as `%XX` with uppercase hexadecimal. -/
def percentByte (b : Nat) : List Char :=
  if isUrlKeepByte b then [Char.ofNat b]
  else ['%', Rurl.hexDigitUpper (b / 16), Rurl.hexDigitUpper (b % 16)]

/-- Model of `urlencoding::encode`: byte-wise percent-encoding of the UTF-8 bytes. -/
def urlencode (s : List Char) : List Char :=
  ((s.map utf8Bytes).flatten.map percentByte).flatten

/-! ## The request-item mini-language parser (`RequestItem::from_str`) -/

/-- A parsed request item (`enum RequestItem`); `FormFile` carries the
path text since `PathBuf` parsing is infallible. -/
inductive RequestItem where
  | Data : List Char → List Char → RequestItem
  | FormFile : List Char → List Char → RequestItem
  | Header : List Char → List Char → RequestItem
  | JsonData : List Char → JsonValue → RequestItem
  | SearchParam : List Char → List Char → RequestItem
deriving Repr

/-- The parser's error type (`enum RequestItemError`). -/
inductive RequestItemError where
  | ParseError : List Char → RequestItemError
  | VariantParseError : List Char → RequestItemError
  | MissingFileInputError : List Char → RequestItemError
  | IOError : List Char → RequestItemError
deriving Repr

/-- The separator alternation `==|:=@?|=@?|:|@` of the parser's regex,
tried at one position: returns the matched separator text and the rest of
the input (the greedy `@?` prefers the file-indirection forms). -/
def sepHere : List Char → Option (List Char × List Char)
  | [] => none
  | [c] =>
    if c = '=' then some (['='], [])
    else if c = ':' then some ([':'], [])
    else if c = '@' then some (['@'], [])
    else none
  | c :: d :: rest =>
    if c = '=' then
      if d = '=' then some (['=', '='], rest)
      else if d = '@' then some (['=', '@'], rest)
      else some (['='], d :: rest)
    else if c = ':' then
      if d = '=' then
        if rest.head? = some '@' then some ([':', '=', '@'], rest.tail)
        else some ([':', '='], rest)
      else some ([':'], d :: rest)
    else if c = '@' then some (['@'], d :: rest)
    else none

/-- The scanning behaviour of the anchored-by-laziness regex
`(?<name>.+?)(?<!\\)(?<sep>==|:=@?|=@?|:|@)(?<value>.*)`: the first
position (left to right) carrying a separator and not preceded by a
backslash splits the token.  `acc` is the key candidate accumulated since
the last newline (the regex metacharacter `.` does not cross newlines,
which also truncates the captured value at a newline). -/
def scanSplit (acc : List Char) : List Char → Option (List Char × List Char × List Char)
  | [] => none
  | c :: cs =>
    match sepHere (c :: cs) with
    | some (variant, val) =>
      if acc ≠ [] ∧ acc.getLast? ≠ some bslash then
        some (acc, variant, val.takeWhile (fun x => x != nl))
      else scanSplit (if c = nl then [] else acc ++ [c]) cs
    | none => scanSplit (if c = nl then [] else acc ++ [c]) cs

/-- The per-variant construction at the end of `RequestItem::from_str`:
the `match variant.as_str()` over `"="`, `"@"`, `":"`, `":="`, `"=="`,
with the defensive `VariantParseError` fallback. -/
def finishItem (s key variant value : List Char) : Except RequestItemError RequestItem :=
  if variant = ['='] then .ok (.Data key value)
  else if variant = ['@'] then .ok (.FormFile key value)
  else if variant = [':'] then
    match headerNameOfChars key, headerValueOfChars value with
    | some k, some v => .ok (.Header k v)
    | _, _ => .error (.ParseError s)
  else if variant = [':', '='] then
    match Json.parse value with
    | some v => .ok (.JsonData key v)
    | none => .error (.ParseError s)
  else if variant = ['=', '='] then .ok (.SearchParam key value)
  else .error (.VariantParseError variant)

/-- Model of `RequestItem::from_str`, over the filesystem model `fs`: regex split,
file indirection when the separator is longer than one character and ends
in `@` (empty path rejected before any file access; unreadable file is an
`IOError`; on success all `@` are stripped from the separator), then the
per-variant construction. -/
def fromStr (fs : List Char → Option (List Char)) (s : List Char) :
    Except RequestItemError RequestItem :=
  match scanSplit [] s with
  | none => .error (.ParseError s)
  | some (key, variant, value) =>
    if variant.length > 1 ∧ variant.getLast? = some '@' then
      if value = [] then .error (.MissingFileInputError value)
      else
        match fs value with
        | none => .error (.IOError value)
        | some contents => finishItem s key (variant.filter (fun c => c ≠ '@')) contents
    else finishItem s key variant value

/-! ## Specification-side parser

These definitions follow the wording of the specification (§4.1), not the
code: the operator table `==`, `:=`, `:`, `=`, `@` in that order, the
first occurrence of the earliest-matching operator, splits preceded by an
escaping backslash rejected, and file indirection as a separate clause
when a recognized `=` or `:=` operator is immediately followed by `@`. -/

/-- Specification side: the first operator of the table (in table order)
that matches at the head of the input. -/
def opAt (l : List Char) : Option (List Char × List Char) :=
  match matchPrefix ['=', '='] l with
  | some rest => some (['=', '='], rest)
  | none =>
    match matchPrefix [':', '='] l with
    | some rest => some ([':', '='], rest)
    | none =>
      match matchPrefix [':'] l with
      | some rest => some ([':'], rest)
      | none =>
        match matchPrefix ['='] l with
        | some rest => some (['='], rest)
        | none =>
          match matchPrefix ['@'] l with
          | some rest => some (['@'], rest)
          | none => none

/-- Specification side: scan left to right for the earliest candidate
split, rejecting a split whose key would be empty or would end in an
escaping backslash. -/
def specFirstSplit (acc : List Char) : List Char → Option (List Char × List Char × List Char)
  | [] => none
  | c :: cs =>
    match opAt (c :: cs) with
    | some (op, rest) =>
      if acc ≠ [] ∧ acc.getLast? ≠ some bslash then some (acc, op, rest)
      else specFirstSplit (acc ++ [c]) cs
    | none => specFirstSplit (acc ++ [c]) cs

/-- Specification side: the per-operator value transform of the table
(§4.1). -/
def specTransform (s key op value : List Char) : Except RequestItemError RequestItem :=
  if op = ['=', '='] then .ok (.SearchParam key value)
  else if op = [':', '='] then
    match Json.parse value with
    | some v => .ok (.JsonData key v)
    | none => .error (.ParseError s)
  else if op = [':'] then
    match headerNameOfChars key, headerValueOfChars value with
    | some k, some v => .ok (.Header k v)
    | _, _ => .error (.ParseError s)
  else if op = ['='] then .ok (.Data key value)
  else if op = ['@'] then .ok (.FormFile key value)
  else .error (.VariantParseError op)

/-- Specification side: one token parsed per the specification's grammar
description — earliest split wins, no operator at all is a `ParseError`,
file indirection applies when `=` or `:=` is immediately followed by `@`
(empty path rejected before file access, unreadable file an `IOError`). -/
def specParse (fs : List Char → Option (List Char)) (s : List Char) :
    Except RequestItemError RequestItem :=
  match specFirstSplit [] s with
  | none => .error (.ParseError s)
  | some (key, op, value) =>
    if (op = [':', '='] ∨ op = ['=']) ∧ value.head? = some '@' then
      let path := value.tail
      if path = [] then .error (.MissingFileInputError path)
      else
        match fs path with
        | none => .error (.IOError path)
        | some contents => specTransform s key op contents
    else specTransform s key op value

/-! ## Body-encoding mode -/

/-- The body mode (`enum Mode`); the default (no flag) is `Json`, and `main` matches
`Some(Json) | None` together. -/
inductive Mode where
  | Form : Mode
  | Json : Mode
deriving Repr, DecidableEq

/-! ## URI normalization (`main`, request building) -/

/-- The three components of `http::uri::Parts` used by the tool. -/
structure UriParts where
  scheme : Option (List Char)
  authority : Option (List Char)
  pathAndQuery : Option (List Char)
deriving Repr, DecidableEq

/-- Model of `Uri::from_parts`: a scheme requires an authority and a path; an
authority with a path requires a scheme. -/
def uriFromParts (p : UriParts) : Except Unit UriParts :=
  match p.scheme with
  | some _ =>
    match p.authority with
    | none => .error ()
    | some _ =>
      match p.pathAndQuery with
      | none => .error ()
      | some _ => .ok p
  | none =>
    match p.authority, p.pathAndQuery with
    | some _, some _ => .error ()
    | _, _ => .ok p

/-- The URI normalization in `main`: default the scheme to `http` and the
path to `/` when absent, then rebuild the URI. -/
def normalizeUri (p : UriParts) : Except Unit UriParts :=
  let p1 : UriParts :=
    { p with scheme := match p.scheme with
                       | some s => some s
                       | none => some "http".toList }
  let p2 : UriParts :=
    { p1 with pathAndQuery := match p1.pathAndQuery with
                              | some pq => some pq
                              | none => some "/".toList }
  uriFromParts p2

/-- The query component of a parts value: the text after the first `?` of
the path-and-query, when present. -/
def uriQuery (p : UriParts) : Option (List Char) :=
  p.pathAndQuery.bind (fun pq =>
    if pq.any (fun c => c = '?') then some ((pq.dropWhile (fun c => c ≠ '?')).tail)
    else none)

/-! ## Request assembly (`main`) -/

/-- Modelled from the spec: the tool-identifying `user-agent` default
header value.  Its exact text comes from the crate name and version in the
build manifest, which is not part of the source tree; no claim depends on
the exact text. -/
def userAgentValue : List Char := "rurl/0.1.0".toList

/-- The two default headers appended by the request builder before any
request item is processed: `accept: */*` and the tool's `user-agent`. -/
def baseHeaders : List (List Char × List Char) :=
  [("accept".toList, "*/*".toList), ("user-agent".toList, userAgentValue)]

/-- One step of the header loop of `main`: a `Header` item is appended to
the header map (`Builder::header` appends; it never replaces), any other
item is skipped. -/
def headerStep (hs : List (List Char × List Char)) (item : RequestItem) :
    List (List Char × List Char) :=
  match item with
  | .Header k v => hs ++ [(k, v)]
  | _ => hs

/-- The header loop of `main`: every `Header` item applied in item order
on top of the default headers. -/
def applyHeaders (items : List RequestItem) : List (List Char × List Char) :=
  items.foldl headerStep baseHeaders

/-- One step of the body-item counting fold of the `Json` arm of `main`. -/
def countStep (prev : Nat) (item : RequestItem) : Nat :=
  match item with
  | .Data _ _ => prev + 1
  | .JsonData _ _ => prev + 1
  | _ => prev

/-- The body-item counting fold of the `Json` arm of `main`. -/
def jsonBodyCount (items : List RequestItem) : Nat :=
  items.foldl countStep 0

/-- One step of the object-building loop of the `Json` arm: `Data` inserts
`json::parse(&json::stringify(value))` (the `?` aborts on a parse
failure), `JsonData` inserts its value directly. -/
def jsonCodeStep (obj : List (List Char × JsonValue)) (item : RequestItem) :
    Except Unit (List (List Char × JsonValue)) :=
  match item with
  | .Data k v =>
    match Json.parse (Json.stringifyStr v) with
    | some jv => .ok (Json.objInsert k jv obj)
    | none => .error ()
  | .JsonData k v => .ok (Json.objInsert k v obj)
  | _ => .ok obj

/-- The object-building loop of the `Json` arm. -/
def jsonObjFold (items : List RequestItem) :
    Except Unit (List (List Char × JsonValue)) :=
  items.foldlM jsonCodeStep []

/-- Header names used for the content headers. -/
def ctName : List Char := "content-type".toList

/-- The `content-length` header name. -/
def clName : List Char := "content-length".toList

/-- Value of `mime::APPLICATION_JSON.to_string()`. -/
def jsonContentType : List Char := "application/json".toList

/-- Value of `mime::APPLICATION_WWW_FORM_URLENCODED_UTF_8.to_string()`. -/
def formContentType : List Char := "application/x-www-form-urlencoded; charset=utf-8".toList

/-- The `Json` arm of the body construction: content headers are added
only when at least one body item was counted; the body is the compact
dump of the accumulated object. -/
def jsonCodeAssemble (items : List RequestItem) :
    Except Unit (List (List Char × List Char) × List Char) :=
  if jsonBodyCount items > 0 then
    (jsonObjFold items).map
      (fun obj =>
        let body := Json.dump (.Object obj)
        ([(ctName, jsonContentType), (clName, Json.natToChars (utf8Length body))], body))
  else .ok ([], [])

/-- One step of the `Form` arm's body fold: percent-encoded `key=value`
pairs, with `&` pushed before every pair after the first. -/
def formStep (body : List Char) (item : RequestItem) : List Char :=
  match item with
  | .Data k v =>
    (if body.isEmpty then body else body ++ ['&']) ++
      (urlencode k ++ '=' :: urlencode v)
  | .JsonData k v =>
    (if body.isEmpty then body else body ++ ['&']) ++
      (urlencode k ++ '=' :: urlencode (Json.dump v))
  | _ => body

/-- The `Form` arm's body fold. -/
def formBodyFold (items : List RequestItem) : List Char :=
  items.foldl formStep []

/-- The `Form` arm of the body construction: content headers only for a
non-empty body. -/
def formCodeAssemble (items : List RequestItem) :
    List (List Char × List Char) × List Char :=
  let body := formBodyFold items
  if body.length > 0 then
    ([(ctName, formContentType), (clName, Json.natToChars (utf8Length body))], body)
  else ([], [])

/-- A fully assembled request: method, normalized URI, the header lines in
the order they were applied, and the body text. -/
structure AssembledRequest where
  method : List Char
  uri : UriParts
  headers : List (List Char × List Char)
  body : List Char
deriving Repr

/-- The request-building pipeline of `main` up to `req.body(..)`: URI
normalization, default headers, `Header` items, then the mode-selected
body with its content headers. -/
def assemble (mode : Option Mode) (method : List Char) (uri : UriParts)
    (items : List RequestItem) : Except Unit AssembledRequest :=
  match normalizeUri uri with
  | .error _ => .error ()
  | .ok u =>
    match mode with
    | some .Json | none =>
      match jsonCodeAssemble items with
      | .error _ => .error ()
      | .ok (chs, body) => .ok ⟨method, u, applyHeaders items ++ chs, body⟩
    | some .Form =>
      let (chs, body) := formCodeAssemble items
      .ok ⟨method, u, applyHeaders items ++ chs, body⟩

/-! ## Specification-side assembly (the wording of §4.3) -/

/-- Specification side: is an item a body item (`Data` or `JsonData`)? -/
def isBodyItem : RequestItem → Bool
  | .Data _ _ => true
  | .JsonData _ _ => true
  | _ => false

/-- Specification side: one insertion step — `Data` inserts the value as
a JSON string field, `JsonData` inserts the parsed value directly, later
items overwrite earlier ones on duplicate keys. -/
def jsonSpecStep (obj : List (List Char × JsonValue)) (item : RequestItem) :
    List (List Char × JsonValue) :=
  match item with
  | .Data k v => Json.objInsert k (.Str v) obj
  | .JsonData k v => Json.objInsert k v obj
  | _ => obj

/-- Specification side: the JSON object described by the spec. -/
def jsonSpecObj (items : List RequestItem) : List (List Char × JsonValue) :=
  items.foldl jsonSpecStep []

/-- Specification side, `Json` mode: empty body and no content headers
when no body item exists; otherwise the compact dump of the object with
`content-type: application/json` and the byte-length `content-length`. -/
def jsonSpecAssemble (items : List RequestItem) :
    List (List Char × List Char) × List Char :=
  if items.any isBodyItem then
    let body := Json.dump (.Object (jsonSpecObj items))
    ([(ctName, jsonContentType), (clName, Json.natToChars (utf8Length body))], body)
  else ([], [])

/-- Specification side: the percent-encoded `key=value` pair of one body
item (`Data` uses the raw text, `JsonData` the compact JSON dump). -/
def formPair : RequestItem → Option (List Char)
  | .Data k v => some (urlencode k ++ '=' :: urlencode v)
  | .JsonData k v => some (urlencode k ++ '=' :: urlencode (Json.dump v))
  | _ => none

/-- Specification side: `&`-joined concatenation. -/
def ampJoin : List (List Char) → List Char
  | [] => []
  | [p] => p
  | p :: q :: rest => p ++ '&' :: ampJoin (q :: rest)

/-- Specification side, `Form` mode: the `&`-joined pairs in input order;
content headers only for a non-empty body (with the `charset=utf-8`
parameter the code's mime constant carries). -/
def formSpecAssemble (items : List RequestItem) :
    List (List Char × List Char) × List Char :=
  let body := ampJoin (items.filterMap formPair)
  if body ≠ [] then
    ([(ctName, formContentType), (clName, Json.natToChars (utf8Length body))], body)
  else ([], [])

/-! ## Response start-line rendering -/

/-- Model of `StatusCode::canonical_reason` of the `http` crate: the canonical
reason phrase of a registered status code. -/
def canonicalReason (code : Nat) : Option (List Char) :=
  match code with
  | 100 => some "Continue".toList
  | 101 => some "Switching Protocols".toList
  | 102 => some "Processing".toList
  | 200 => some "OK".toList
  | 201 => some "Created".toList
  | 202 => some "Accepted".toList
  | 203 => some "Non-Authoritative Information".toList
  | 204 => some "No Content".toList
  | 205 => some "Reset Content".toList
  | 206 => some "Partial Content".toList
  | 207 => some "Multi-Status".toList
  | 208 => some "Already Reported".toList
  | 226 => some "IM Used".toList
  | 300 => some "Multiple Choices".toList
  | 301 => some "Moved Permanently".toList
  | 302 => some "Found".toList
  | 303 => some "See Other".toList
  | 304 => some "Not Modified".toList
  | 305 => some "Use Proxy".toList
  | 307 => some "Temporary Redirect".toList
  | 308 => some "Permanent Redirect".toList
  | 400 => some "Bad Request".toList
  | 401 => some "Unauthorized".toList
  | 402 => some "Payment Required".toList
  | 403 => some "Forbidden".toList
  | 404 => some "Not Found".toList
  | 405 => some "Method Not Allowed".toList
  | 406 => some "Not Acceptable".toList
  | 407 => some "Proxy Authentication Required".toList
  | 408 => some "Request Timeout".toList
  | 409 => some "Conflict".toList
  | 410 => some "Gone".toList
  | 411 => some "Length Required".toList
  | 412 => some "Precondition Failed".toList
  | 413 => some "Payload Too Large".toList
  | 414 => some "URI Too Long".toList
  | 415 => some "Unsupported Media Type".toList
  | 416 => some "Range Not Satisfiable".toList
  | 417 => some "Expectation Failed".toList
  | 418 => some "I'm a teapot".toList
  | 421 => some "Misdirected Request".toList
  | 422 => some "Unprocessable Entity".toList
  | 423 => some "Locked".toList
  | 424 => some "Failed Dependency".toList
  | 426 => some "Upgrade Required".toList
  | 428 => some "Precondition Required".toList
  | 429 => some "Too Many Requests".toList
  | 431 => some "Request Header Fields Too Large".toList
  | 451 => some "Unavailable For Legal Reasons".toList
  | 500 => some "Internal Server Error".toList
  | 501 => some "Not Implemented".toList
  | 502 => some "Bad Gateway".toList
  | 503 => some "Service Unavailable".toList
  | 504 => some "Gateway Timeout".toList
  | 505 => some "HTTP Version Not Supported".toList
  | 506 => some "Variant Also Negotiates".toList
  | 507 => some "Insufficient Storage".toList
  | 508 => some "Loop Detected".toList
  | 510 => some "Not Extended".toList
  | 511 => some "Network Authentication Required".toList
  | _ => none

/-- The response start line printed by `main`: version, numeric status and
canonical reason phrase followed by a newline; the
`canonical_reason().unwrap()` is modelled by the `Option`: `none` is the
panic on a status code with no canonical reason phrase. -/
def renderStatusLine (version : List Char) (code : Nat) : Option (List Char) :=
  (canonicalReason code).map
    (fun reason => version ++ ' ' :: Json.natToChars code ++ ' ' :: reason ++ [nl])

/-! ## Helper lemmas -/

/-- The key returned by the scanner is non-empty and does not end in the
escaping backslash. -/
theorem scanSplit_key_shape :
    ∀ (l acc key variant value : List Char),
      scanSplit acc l = some (key, variant, value) →
      key ≠ [] ∧ key.getLast? ≠ some bslash := by
  intro l
  induction l with
  | nil => intro acc key variant value h; simp [scanSplit] at h
  | cons c cs ih =>
    intro acc key variant value h
    rw [scanSplit] at h
    cases hsep : sepHere (c :: cs) with
    | none =>
      rw [hsep] at h
      exact ih _ _ _ _ h
    | some pr =>
      obtain ⟨var0, val0⟩ := pr
      rw [hsep] at h
      simp only at h
      by_cases hcond : acc ≠ [] ∧ acc.getLast? ≠ some bslash
      · rw [if_pos hcond] at h
        simp only [Option.some.injEq, Prod.mk.injEq] at h
        exact h.1 ▸ hcond
      · rw [if_neg hcond] at h
        exact ih _ _ _ _ h

/-- A `filterMap`-style view of one item's contribution to the header
loop. -/
def headerPair : RequestItem → Option (List Char × List Char)
  | .Header k v => some (k, v)
  | _ => none

/-- The header fold from an arbitrary starting header list appends exactly
the `Header` items, in order. -/
theorem headerFold_eq :
    ∀ (items : List RequestItem) (hs : List (List Char × List Char)),
      items.foldl headerStep hs = hs ++ items.filterMap headerPair := by
  intro items
  induction items with
  | nil => intro hs; simp
  | cons it rest ih =>
    intro hs
    cases it <;>
      simp [headerStep, headerPair, List.filterMap_cons, ih, List.append_assoc]

/-! ## C10 — response start line rendering of an unregistered status code -/

/-- C10: a status code with no canonical reason phrase (for example 599)
makes `canonical_reason()` return `None`, and the start-line rendering
unwraps it: the `none` result models the panic — no diagnostic-and-exit
path exists in the renderer. -/
theorem unknownStatusRenderPanics :
    canonicalReason 599 = none ∧ renderStatusLine "HTTP/1.1".toList 599 = none :=
  ⟨rfl, rfl⟩

/-! ## C2 — escaping -/

/-- C2 counterexample: the §8 escaping token `a\=b=c` does split at the
second `=` with value `c`, but the parser keeps the backslash in the key:
the key is `a\=b`, not `a=b`. -/
theorem escapedKeyKeepsBackslash :
    fromStr (fun _ => none) "a\\=b=c".toList = .ok (.Data "a\\=b".toList "c".toList)
    ∧ ("a\\=b".toList == "a=b".toList) = false :=
  ⟨rfl, by decide⟩

/-- C2 amended: a backslash immediately preceding an operator character
escapes it — the split is rejected and scanning continues at the next
candidate split (no returned key ends in the escaping backslash) — but the
backslash is retained in the key: the §8 token `a\=b=c` parses to key
`a\=b` (with the backslash) and value `c`. -/
theorem escapedOperatorDoesNotSplit :
    (∀ (s key variant value : List Char),
        scanSplit [] s = some (key, variant, value) →
        key ≠ [] ∧ key.getLast? ≠ some bslash)
    ∧ fromStr (fun _ => none) "a\\=b=c".toList = .ok (.Data "a\\=b".toList "c".toList) :=
  ⟨fun s key variant value h => scanSplit_key_shape s [] key variant value h, rfl⟩

/-- Witness for the hypothesis-carrying half of the amended C2: the
scanner's answer on the §8 token satisfies the stated key shape. -/
theorem escapedOperatorDoesNotSplit_witness :
    "a\\=b".toList ≠ [] ∧ "a\\=b".toList.getLast? ≠ some bslash :=
  escapedOperatorDoesNotSplit.1 "a\\=b=c".toList "a\\=b".toList ['='] "c".toList rfl

/-! ## C6 — default headers and user-supplied headers -/

/-- C6 counterexample: a user-supplied `Header` item whose name collides
with a default (`accept`) does not replace the default — the header list
keeps both lines. -/
theorem userHeaderDoesNotOverrideDefault :
    applyHeaders [.Header "accept".toList "text/plain".toList]
      = [("accept".toList, "*/*".toList), ("user-agent".toList, userAgentValue),
         ("accept".toList, "text/plain".toList)]
    ∧ (applyHeaders [.Header "accept".toList "text/plain".toList]).countP
        (fun h => decide (h.1 = "accept".toList)) = 2 :=
  ⟨rfl, by decide⟩

/-- C6 amended: the defaults `accept: */*` and the tool-identifying
`user-agent` are always present, and every user-supplied `Header` item is
appended after them in item order as an additional header line — duplicate
names (among user items, or between a user item and a default) are
preserved as multi-value headers, never overwritten. -/
theorem defaultHeadersAlwaysPresent :
    ∀ items : List RequestItem,
      applyHeaders items = baseHeaders ++ items.filterMap headerPair :=
  fun items => headerFold_eq items baseHeaders

/-! ## C7 — URI normalization -/

/-- C7: whenever the rebuilt URI exists, its scheme is the input's scheme
defaulted to `http`, its path-and-query is the input's defaulted to `/`,
and the authority and query components are passed through unchanged. -/
theorem uriNormalization :
    ∀ (p u : UriParts), normalizeUri p = .ok u →
      u.scheme = some (p.scheme.getD "http".toList)
      ∧ u.pathAndQuery = some (p.pathAndQuery.getD "/".toList)
      ∧ u.authority = p.authority
      ∧ uriQuery u = uriQuery p := by
  intro p u h
  obtain ⟨ps, pa, pq⟩ := p
  cases ps <;> cases pa <;> cases pq <;>
    simp_all [normalizeUri, uriFromParts, uriQuery] <;>
    subst h <;> simp [uriQuery]

/-- Witness for C7 at the concrete parts of `example.com` (no scheme, no
path). -/
theorem uriNormalization_witness :
    normalizeUri ⟨none, some "example.com".toList, none⟩
        = .ok ⟨some "http".toList, some "example.com".toList, some "/".toList⟩
    ∧ ((⟨some "http".toList, some "example.com".toList, some "/".toList⟩ : UriParts).scheme
          = some ((none : Option (List Char)).getD "http".toList)
        ∧ (⟨some "http".toList, some "example.com".toList, some "/".toList⟩ : UriParts).pathAndQuery
          = some ((none : Option (List Char)).getD "/".toList)
        ∧ (⟨some "http".toList, some "example.com".toList, some "/".toList⟩ : UriParts).authority
          = (⟨none, some "example.com".toList, none⟩ : UriParts).authority
        ∧ uriQuery ⟨some "http".toList, some "example.com".toList, some "/".toList⟩
          = uriQuery ⟨none, some "example.com".toList, none⟩) :=
  ⟨rfl, uriNormalization ⟨none, some "example.com".toList, none⟩
    ⟨some "http".toList, some "example.com".toList, some "/".toList⟩ rfl⟩

/-! ## C9 — the separator grammar is exhaustive -/

/-- Every separator the regex alternation can produce is one of the seven
literal alternatives. -/
theorem sepHere_shape :
    ∀ (l variant rest : List Char), sepHere l = some (variant, rest) →
      variant = ['='] ∨ variant = ['=', '='] ∨ variant = ['=', '@'] ∨
      variant = [':'] ∨ variant = [':', '='] ∨ variant = [':', '=', '@'] ∨
      variant = ['@'] := by
  intro l variant rest h
  match l with
  | [] => simp [sepHere] at h
  | [c] =>
    rw [sepHere] at h
    split_ifs at h <;> simp_all
  | c :: d :: r =>
    rw [sepHere] at h
    split_ifs at h <;> simp_all

/-- Every separator the scanner returns has one of the seven shapes. -/
theorem scanSplit_variant_shape :
    ∀ (l acc key variant value : List Char),
      scanSplit acc l = some (key, variant, value) →
      variant = ['='] ∨ variant = ['=', '='] ∨ variant = ['=', '@'] ∨
      variant = [':'] ∨ variant = [':', '='] ∨ variant = [':', '=', '@'] ∨
      variant = ['@'] := by
  intro l
  induction l with
  | nil => intro acc key variant value h; simp [scanSplit] at h
  | cons c cs ih =>
    intro acc key variant value h
    rw [scanSplit] at h
    cases hsep : sepHere (c :: cs) with
    | none =>
      rw [hsep] at h
      exact ih _ _ _ _ h
    | some pr =>
      obtain ⟨var0, val0⟩ := pr
      rw [hsep] at h
      simp only at h
      by_cases hcond : acc ≠ [] ∧ acc.getLast? ≠ some bslash
      · rw [if_pos hcond] at h
        simp only [Option.some.injEq, Prod.mk.injEq] at h
        exact h.2.1 ▸ sepHere_shape _ _ _ hsep
      · rw [if_neg hcond] at h
        exact ih _ _ _ _ h

/-- Does a parse result land in the defensive unknown-variant branch? -/
def isVariantParseErr : Except RequestItemError RequestItem → Bool
  | .error (.VariantParseError _) => true
  | _ => false

/-- No token and no filesystem can drive `from_str` into the defensive
unknown-variant branch. -/
theorem fromStr_no_variantErr :
    ∀ (fs : List Char → Option (List Char)) (s v : List Char),
      fromStr fs s ≠ .error (.VariantParseError v) := by
  intro fs s v h
  rw [fromStr] at h
  cases hscan : scanSplit [] s with
  | none => rw [hscan] at h; simp at h
  | some t =>
    obtain ⟨key, variant, value⟩ := t
    rw [hscan] at h
    simp only at h
    rcases scanSplit_variant_shape s [] key variant value hscan with
      hv | hv | hv | hv | hv | hv | hv <;> subst hv
    · -- "="
      simp [finishItem] at h
    · -- "=="
      simp [finishItem] at h
    · -- "=@" (file indirection to a plain value)
      rw [if_pos (by decide :
        (['=', '@'] : List Char).length > 1 ∧ (['=', '@'] : List Char).getLast? = some '@')] at h
      by_cases hemp : value = []
      · simp [hemp] at h
      · rw [if_neg hemp] at h
        cases hfs : fs value <;> simp [hfs, finishItem] at h
    · -- ":"
      rw [if_neg (by decide :
        ¬((([':'] : List Char).length > 1 ∧ ([':'] : List Char).getLast? = some '@')))] at h
      cases hn : headerNameOfChars key <;> cases hv2 : headerValueOfChars value <;>
        simp [finishItem, hn, hv2] at h
    · -- ":="
      rw [if_neg (by decide :
        ¬((([':', '='] : List Char).length > 1 ∧ ([':', '='] : List Char).getLast? = some '@')))] at h
      cases hj : Json.parse value <;> simp [finishItem, hj] at h
    · -- ":=@" (file indirection to a JSON value)
      rw [if_pos (by decide :
        ([':', '=', '@'] : List Char).length > 1 ∧
          ([':', '=', '@'] : List Char).getLast? = some '@')] at h
      by_cases hemp : value = []
      · simp [hemp] at h
      · rw [if_neg hemp] at h
        cases hfs : fs value with
        | none => simp [hfs] at h
        | some contents =>
          rw [hfs] at h
          cases hj : Json.parse contents <;> simp [finishItem, hj] at h
    · -- "@"
      simp [finishItem] at h

/-- C9: `RequestItem` parsing never returns `VariantParseError` — for
every token and every filesystem, the separator surviving the
`@`-stripping is one of the five recognized operators, so the defensive
unknown-variant branch of `from_str` is unreachable. -/
theorem variantParseErrorUnreachable :
    ∀ (fs : List Char → Option (List Char)) (s : List Char),
      isVariantParseErr (fromStr fs s) = false := by
  intro fs s
  cases hres : fromStr fs s with
  | ok item => rfl
  | error e =>
    cases e with
    | ParseError a => rfl
    | VariantParseError v => exact absurd hres (fromStr_no_variantErr fs s v)
    | MissingFileInputError a => rfl
    | IOError a => rfl

/-! ## C4 — Json-mode body assembly -/

/-- Hexadecimal digits below 16 decode back to their value. -/
theorem hexVal_hexDigitLower : ∀ m, m < 16 → Json.hexVal (hexDigitLower m) = some m := by
  decide

/-- Reading back the characters of an escaped string recovers it exactly
(the escaping and the string reader of the JSON model are inverse). -/
theorem stringChars_escape :
    ∀ (v rest : List Char),
      Json.stringChars (Json.escapeStr v ++ '"' :: rest) = some (v, rest) := by
  intro v
  induction v with
  | nil =>
    intro rest
    simp only [Json.escapeStr, List.map_nil, List.flatten_nil, List.nil_append]
    rw [Json.stringChars.eq_def]
    simp
  | cons c cs ih =>
    intro rest
    have hesc : Json.escapeStr (c :: cs) = Json.escapeChar c ++ Json.escapeStr cs := by
      simp [Json.escapeStr]
    rw [hesc, List.append_assoc]
    by_cases h1 : c = '"'
    · subst h1
      rw [show Json.escapeChar '"' = [bslash, '"'] from by rw [Json.escapeChar]; simp]
      simp only [List.cons_append, List.nil_append]
      rw [Json.stringChars.eq_def]
      simp [bslash, Json.unescapeChar, ih]
    · by_cases h2 : c = bslash
      · subst h2
        rw [show Json.escapeChar bslash = [bslash, bslash] from by
          rw [Json.escapeChar]; simp [bslash]]
        simp only [List.cons_append, List.nil_append]
        rw [Json.stringChars.eq_def]
        simp [bslash, Json.unescapeChar, ih]
      · by_cases h3 : c = Char.ofNat 8
        · subst h3
          rw [show Json.escapeChar (Char.ofNat 8) = [bslash, 'b'] from by
            rw [Json.escapeChar]; simp [bslash]]
          simp only [List.cons_append, List.nil_append]
          rw [Json.stringChars.eq_def]
          simp [bslash, Json.unescapeChar, ih]
        · by_cases h4 : c = Char.ofNat 12
          · subst h4
            rw [show Json.escapeChar (Char.ofNat 12) = [bslash, 'f'] from by
              rw [Json.escapeChar]; simp [bslash]]
            simp only [List.cons_append, List.nil_append]
            rw [Json.stringChars.eq_def]
            simp [bslash, Json.unescapeChar, ih]
          · by_cases h5 : c = nl
            · subst h5
              rw [show Json.escapeChar nl = [bslash, 'n'] from by
                rw [Json.escapeChar]; simp [bslash, nl]]
              simp only [List.cons_append, List.nil_append]
              rw [Json.stringChars.eq_def]
              simp [bslash, nl, Json.unescapeChar, ih]
            · by_cases h6 : c = Char.ofNat 13
              · subst h6
                rw [show Json.escapeChar (Char.ofNat 13) = [bslash, 'r'] from by
                  rw [Json.escapeChar]; simp [bslash, nl]]
                simp only [List.cons_append, List.nil_append]
                rw [Json.stringChars.eq_def]
                simp [bslash, nl, Json.unescapeChar, ih]
              · by_cases h7 : c = Char.ofNat 9
                · subst h7
                  rw [show Json.escapeChar (Char.ofNat 9) = [bslash, 't'] from by
                    rw [Json.escapeChar]; simp [bslash, nl]]
                  simp only [List.cons_append, List.nil_append]
                  rw [Json.stringChars.eq_def]
                  simp [bslash, nl, Json.unescapeChar, ih]
                · by_cases h8 : c.toNat < 32
                  · have hq : Json.escapeChar c =
                        [bslash, 'u', '0', '0',
                          hexDigitLower (c.toNat / 16), hexDigitLower (c.toNat % 16)] := by
                      rw [Json.escapeChar]
                      rw [if_neg h1, if_neg h2, if_neg h3, if_neg h4, if_neg h5, if_neg h6,
                        if_neg h7, if_pos h8]
                    rw [hq]
                    have hdiv : c.toNat / 16 < 16 := Nat.div_lt_of_lt_mul (by omega)
                    have hmod : c.toNat % 16 < 16 := Nat.mod_lt _ (by omega)
                    have h0 : Json.hexVal '0' = some 0 := by decide
                    simp only [List.cons_append, List.nil_append]
                    rw [Json.stringChars.eq_def]
                    have hn : ((0 * 16 + 0) * 16 + c.toNat / 16) * 16 + c.toNat % 16
                        = c.toNat := by omega
                    simp [bslash, h0, hexVal_hexDigitLower _ hdiv,
                      hexVal_hexDigitLower _ hmod, hn, Char.ofNat_toNat, ih]
                    rw [show c.toNat / 16 * 16 + c.toNat % 16 = c.toNat from by omega,
                      Char.ofNat_toNat]
                  · have hq : Json.escapeChar c = [c] := by
                      rw [Json.escapeChar]
                      rw [if_neg h1, if_neg h2, if_neg h3, if_neg h4, if_neg h5, if_neg h6,
                        if_neg h7, if_neg h8]
                    rw [hq]
                    simp only [List.cons_append, List.nil_append]
                    rw [Json.stringChars.eq_def]
                    simp [h1, h2, ih]

/-- Composing `json::parse` after `json::stringify` is the identity on plain strings: a
`Data` value round-trips to the JSON string of the same text. -/
theorem parse_stringify :
    ∀ v : List Char, Json.parse (Json.stringifyStr v) = some (.Str v) := by
  intro v
  have hd : Json.stringifyStr v = '"' :: (Json.escapeStr v ++ '"' :: []) := by
    simp [Json.stringifyStr, Json.dump]
  rw [hd, Json.parse]
  have hws : Json.skipWs ('"' :: (Json.escapeStr v ++ '"' :: []))
      = '"' :: (Json.escapeStr v ++ '"' :: []) := by
    rw [Json.skipWs, List.dropWhile_cons]
    rw [show Json.isWs '"' = false from by decide]
    simp
  rw [Json.readValue.eq_def]
  simp only [hws]
  rw [stringChars_escape]
  simp [Json.skipWs]

/-- The Json-mode object fold never fails and computes the
specification's fold: `Data` contributes the value as a JSON string
field, `JsonData` the parsed value, later items overwriting earlier ones
through `objInsert`. -/
theorem jsonObjFold_eq_spec :
    ∀ (items : List RequestItem) (acc : List (List Char × JsonValue)),
      items.foldlM jsonCodeStep acc = .ok (items.foldl jsonSpecStep acc) := by
  intro items
  induction items with
  | nil => intro acc; rfl
  | cons it rest ih =>
    intro acc
    cases it with
    | Data k v =>
      simp only [List.foldlM_cons, List.foldl_cons, jsonCodeStep, jsonSpecStep,
        parse_stringify]
      exact ih _
    | JsonData k v =>
      simp only [List.foldlM_cons, List.foldl_cons, jsonCodeStep, jsonSpecStep]
      exact ih _
    | FormFile k v =>
      simp only [List.foldlM_cons, List.foldl_cons, jsonCodeStep, jsonSpecStep]
      exact ih _
    | Header k v =>
      simp only [List.foldlM_cons, List.foldl_cons, jsonCodeStep, jsonSpecStep]
      exact ih _
    | SearchParam k v =>
      simp only [List.foldlM_cons, List.foldl_cons, jsonCodeStep, jsonSpecStep]
      exact ih _

/-- The counting fold counts exactly the body items. -/
theorem countFold_eq :
    ∀ (items : List RequestItem) (n : Nat),
      items.foldl countStep n = n + items.countP isBodyItem := by
  intro items
  induction items with
  | nil => intro n; simp
  | cons it rest ih =>
    intro n
    cases it <;> simp [countStep, List.countP_cons, isBodyItem, ih] <;> omega

/-- C4: in Json mode the body construction refines the specification's
description — with at least one `Data`/`JsonData` item the body is the
compact dump of the object folded with string-field/direct insertion
(later items winning on duplicate keys) and the `content-type:
application/json` and byte-length `content-length` headers are produced;
with none, the body is empty and no content headers are produced; the
`?`-fallible code path never fails. -/
theorem jsonModeAssembly :
    ∀ items : List RequestItem, jsonCodeAssemble items = .ok (jsonSpecAssemble items) := by
  intro items
  rw [jsonCodeAssemble, jsonSpecAssemble]
  by_cases hn : jsonBodyCount items > 0
  · have hany : items.any isBodyItem = true := by
      rw [jsonBodyCount, countFold_eq] at hn
      simp only [Nat.zero_add] at hn
      rw [List.any_eq_true]
      obtain ⟨a, ha, hpa⟩ := List.countP_pos_iff.mp hn
      exact ⟨a, ha, hpa⟩
    rw [if_pos hn, if_pos hany, jsonObjFold, jsonObjFold_eq_spec]
    rfl
  · have hany : ¬items.any isBodyItem = true := by
      intro hcon
      rw [List.any_eq_true] at hcon
      obtain ⟨a, ha, hpa⟩ := hcon
      apply hn
      rw [jsonBodyCount, countFold_eq]
      simp only [Nat.zero_add]
      exact List.countP_pos_iff.mpr ⟨a, ha, hpa⟩
    rw [if_neg hn, if_neg hany]

/-! ## C5 — Form-mode body assembly -/

/-- The tail of an `&`-join: every pair prefixed by `&`. -/
def ampTail (ps : List (List Char)) : List Char :=
  ps.foldr (fun p r => '&' :: (p ++ r)) []

/-- Unfolding of `ampJoin` in head/tail form. -/
theorem ampJoin_cons :
    ∀ (p : List Char) (ps : List (List Char)), ampJoin (p :: ps) = p ++ ampTail ps := by
  intro p ps
  induction ps generalizing p with
  | nil => simp [ampJoin, ampTail]
  | cons q ps ih => simp [ampJoin, ampTail, ih q]

/-- A body pair always contains the `=` separator, hence is non-empty. -/
theorem formPair_ne_nil :
    ∀ (item : RequestItem) (p : List Char), formPair item = some p → p ≠ [] := by
  intro item p h
  cases item <;> simp [formPair] at h <;> simp [← h]

/-- The form fold started from a non-empty accumulator appends `&`-prefixed
pairs. -/
theorem formFold_from_ne :
    ∀ (items : List RequestItem) (acc : List Char), acc ≠ [] →
      items.foldl formStep acc = acc ++ ampTail (items.filterMap formPair) := by
  intro items
  induction items with
  | nil => intro acc _; simp [ampTail]
  | cons it rest ih =>
    intro acc hacc
    cases it with
    | Data k v =>
      have hne : (acc ++ ['&']) ++ (urlencode k ++ '=' :: urlencode v) ≠ [] := by simp
      simp only [List.foldl_cons, formStep, List.isEmpty_eq_true, if_neg hacc]
      rw [ih _ hne]
      simp [formPair, List.filterMap_cons, ampTail]
    | JsonData k v =>
      have hne : (acc ++ ['&']) ++ (urlencode k ++ '=' :: urlencode (Json.dump v)) ≠ [] := by
        simp
      simp only [List.foldl_cons, formStep, List.isEmpty_eq_true, if_neg hacc]
      rw [ih _ hne]
      simp [formPair, List.filterMap_cons, ampTail]
    | FormFile k v =>
      simp only [List.foldl_cons, formStep]
      rw [ih _ hacc]
      simp [formPair, List.filterMap_cons]
    | Header k v =>
      simp only [List.foldl_cons, formStep]
      rw [ih _ hacc]
      simp [formPair, List.filterMap_cons]
    | SearchParam k v =>
      simp only [List.foldl_cons, formStep]
      rw [ih _ hacc]
      simp [formPair, List.filterMap_cons]

/-- The form fold from the empty accumulator is the `&`-join of the pairs. -/
theorem formFold_eq_join :
    ∀ items : List RequestItem,
      items.foldl formStep [] = ampJoin (items.filterMap formPair) := by
  intro items
  induction items with
  | nil => rfl
  | cons it rest ih =>
    cases it with
    | Data k v =>
      have hne : ([] : List Char) ++ (urlencode k ++ '=' :: urlencode v) ≠ [] := by simp
      simp only [List.foldl_cons, formStep, List.isEmpty_nil, if_true]
      rw [formFold_from_ne rest _ hne]
      simp [formPair, List.filterMap_cons, ampJoin_cons]
    | JsonData k v =>
      have hne : ([] : List Char) ++ (urlencode k ++ '=' :: urlencode (Json.dump v)) ≠ [] := by
        simp
      simp only [List.foldl_cons, formStep, List.isEmpty_nil, if_true]
      rw [formFold_from_ne rest _ hne]
      simp [formPair, List.filterMap_cons, ampJoin_cons]
    | FormFile k v => simpa [formStep, formPair, List.filterMap_cons] using ih
    | Header k v => simpa [formStep, formPair, List.filterMap_cons] using ih
    | SearchParam k v => simpa [formStep, formPair, List.filterMap_cons] using ih

/-- C5 counterexample: the single item `name=John Doe` produces the body
`name=John%20Doe`, but the content-type set by the code carries a
`charset=utf-8` parameter — it is not exactly
`application/x-www-form-urlencoded`. -/
theorem formContentTypeHasCharset :
    formCodeAssemble [.Data "name".toList "John Doe".toList]
      = ([(ctName, formContentType), (clName, "15".toList)], "name=John%20Doe".toList)
    ∧ (formContentType == "application/x-www-form-urlencoded".toList) = false :=
  ⟨rfl, by decide⟩

/-- C5 amended: in Form mode the body is the `&`-joined concatenation, in
item input order, of percent-encoded `key=value` pairs (raw text for
`Data`, compact JSON dump for `JsonData`), empty when no such item exists;
a non-empty body sets `content-length` to the byte length and
`content-type` to `application/x-www-form-urlencoded; charset=utf-8` (the
code's mime constant carries the charset parameter). -/
theorem formModeAssembly :
    ∀ items : List RequestItem, formCodeAssemble items = formSpecAssemble items := by
  intro items
  rw [formCodeAssemble, formSpecAssemble, formBodyFold, formFold_eq_join]
  by_cases hb : ampJoin (items.filterMap formPair) = []
  · rw [hb]
    simp
  · rw [if_pos (List.length_pos.mpr hb), if_pos hb]

/-! ## C8 — `FormFile` and `SearchParam` are inert in assembly -/

/-- The item kinds the assembler never consumes. -/
def isInert : RequestItem → Bool
  | .FormFile _ _ => true
  | .SearchParam _ _ => true
  | _ => false

/-- Value of `isInert` on `Data`. -/
theorem isInert_Data (k v : List Char) : isInert (.Data k v) = false := rfl

/-- Value of `isInert` on `FormFile`. -/
theorem isInert_FormFile (k v : List Char) : isInert (.FormFile k v) = true := rfl

/-- Value of `isInert` on `Header`. -/
theorem isInert_Header (k v : List Char) : isInert (.Header k v) = false := rfl

/-- Value of `isInert` on `JsonData`. -/
theorem isInert_JsonData (k : List Char) (v : JsonValue) : isInert (.JsonData k v) = false := rfl

/-- Value of `isInert` on `SearchParam`. -/
theorem isInert_SearchParam (k v : List Char) : isInert (.SearchParam k v) = true := rfl

/-- The header fold ignores inert items. -/
theorem headerFold_filter_inert :
    ∀ (items : List RequestItem) (hs : List (List Char × List Char)),
      (items.filter (fun it => !isInert it)).foldl headerStep hs
        = items.foldl headerStep hs := by
  intro items
  induction items with
  | nil => intro hs; rfl
  | cons it rest ih =>
    intro hs
    cases it <;> simp [isInert_Data, isInert_FormFile, isInert_Header, isInert_JsonData,
      isInert_SearchParam, headerStep, List.filter_cons, ih]

/-- The body-item count ignores inert items. -/
theorem countFold_filter_inert :
    ∀ (items : List RequestItem) (n : Nat),
      (items.filter (fun it => !isInert it)).foldl countStep n
        = items.foldl countStep n := by
  intro items
  induction items with
  | nil => intro n; rfl
  | cons it rest ih =>
    intro n
    cases it <;> simp [isInert_Data, isInert_FormFile, isInert_Header, isInert_JsonData,
      isInert_SearchParam, countStep, List.filter_cons, ih]

/-- The Json object fold ignores inert items. -/
theorem jsonObjFold_filter_inert :
    ∀ (items : List RequestItem) (obj : List (List Char × JsonValue)),
      (items.filter (fun it => !isInert it)).foldlM jsonCodeStep obj
        = items.foldlM jsonCodeStep obj := by
  intro items
  induction items with
  | nil => intro obj; rfl
  | cons it rest ih =>
    intro obj
    cases it <;>
      (simp [isInert_Data, isInert_FormFile, isInert_Header, isInert_JsonData,
        isInert_SearchParam, jsonCodeStep, List.filter_cons, List.foldlM_cons, ih,
        parse_stringify]
       try rfl)

/-- The form body fold ignores inert items. -/
theorem formFold_filter_inert :
    ∀ (items : List RequestItem) (acc : List Char),
      (items.filter (fun it => !isInert it)).foldl formStep acc
        = items.foldl formStep acc := by
  intro items
  induction items with
  | nil => intro acc; rfl
  | cons it rest ih =>
    intro acc
    cases it <;> simp [isInert_Data, isInert_FormFile, isInert_Header, isInert_JsonData,
      isInert_SearchParam, formStep, List.filter_cons, ih]

/-- C8: the assembled request built from an item list equals the one built
from the same list with every `FormFile` and `SearchParam` item removed —
those items contribute nothing to the headers, the body of either mode,
the content headers, or the URI. -/
theorem inertItemsDropOut :
    ∀ (mode : Option Mode) (method : List Char) (uri : UriParts)
      (items : List RequestItem),
      assemble mode method uri (items.filter (fun it => !isInert it))
        = assemble mode method uri items := by
  intro mode method uri items
  rw [assemble, assemble]
  cases normalizeUri uri with
  | error e => rfl
  | ok u =>
    have hHeaders : applyHeaders (items.filter (fun it => !isInert it))
        = applyHeaders items := by
      rw [applyHeaders, applyHeaders, headerFold_filter_inert]
    have hJson : jsonCodeAssemble (items.filter (fun it => !isInert it))
        = jsonCodeAssemble items := by
      rw [jsonCodeAssemble, jsonCodeAssemble, jsonBodyCount, jsonBodyCount,
        countFold_filter_inert, jsonObjFold, jsonObjFold, jsonObjFold_filter_inert]
    have hForm : formCodeAssemble (items.filter (fun it => !isInert it))
        = formCodeAssemble items := by
      rw [formCodeAssemble, formCodeAssemble, formBodyFold, formBodyFold,
        formFold_filter_inert]
    match mode with
    | some .Json | none =>
      simp only [hJson]
      cases jsonCodeAssemble items with
      | error e => rfl
      | ok p => simp [hHeaders]
    | some .Form =>
      simp [hForm, hHeaders]

/-! ## C1 — the scanner agrees with the specification's operator table -/

/-- The helper `matchPrefix` only returns a sublist of its input. -/
theorem matchPrefix_rest_subset :
    ∀ (p l r : List Char), matchPrefix p l = some r → ∀ x ∈ r, x ∈ l := by
  intro p
  induction p with
  | nil =>
    intro l r h
    simp [matchPrefix] at h
    subst h
    exact fun x hx => hx
  | cons q ps ih =>
    intro l r h
    cases l with
    | nil => simp [matchPrefix] at h
    | cons c cs =>
      rw [matchPrefix] at h
      by_cases hc : c = q
      · rw [if_pos hc] at h
        exact fun x hx => List.mem_cons_of_mem c (ih cs r h x hx)
      · rw [if_neg hc] at h
        simp at h

/-- What `opAt` can return: one of the five table operators, with a
remainder drawn from the input. -/
theorem opAt_cases :
    ∀ (l op rest : List Char), opAt l = some (op, rest) →
      (op = ['=', '='] ∨ op = [':', '='] ∨ op = [':'] ∨ op = ['='] ∨ op = ['@'])
      ∧ ∀ x ∈ rest, x ∈ l := by
  intro l op rest h
  rw [opAt] at h
  cases h1 : matchPrefix ['=', '='] l with
  | some r =>
    rw [h1] at h
    simp only [Option.some.injEq, Prod.mk.injEq] at h
    exact ⟨Or.inl h.1.symm, h.2 ▸ matchPrefix_rest_subset _ _ _ h1⟩
  | none =>
    rw [h1] at h
    cases h2 : matchPrefix [':', '='] l with
    | some r =>
      rw [h2] at h
      simp only [Option.some.injEq, Prod.mk.injEq] at h
      exact ⟨Or.inr (Or.inl h.1.symm), h.2 ▸ matchPrefix_rest_subset _ _ _ h2⟩
    | none =>
      rw [h2] at h
      cases h3 : matchPrefix [':'] l with
      | some r =>
        rw [h3] at h
        simp only [Option.some.injEq, Prod.mk.injEq] at h
        exact ⟨Or.inr (Or.inr (Or.inl h.1.symm)), h.2 ▸ matchPrefix_rest_subset _ _ _ h3⟩
      | none =>
        rw [h3] at h
        cases h4 : matchPrefix ['='] l with
        | some r =>
          rw [h4] at h
          simp only [Option.some.injEq, Prod.mk.injEq] at h
          exact ⟨Or.inr (Or.inr (Or.inr (Or.inl h.1.symm))),
            h.2 ▸ matchPrefix_rest_subset _ _ _ h4⟩
        | none =>
          rw [h4] at h
          cases h5 : matchPrefix ['@'] l with
          | some r =>
            rw [h5] at h
            simp only [Option.some.injEq, Prod.mk.injEq] at h
            exact ⟨Or.inr (Or.inr (Or.inr (Or.inr h.1.symm))),
              h.2 ▸ matchPrefix_rest_subset _ _ _ h5⟩
          | none => rw [h5] at h; simp at h

/-- The regex separator alternation is the specification's operator table
with the greedy `@?` folded in: `:=`/`=` followed by `@` become the
file-indirection separators. -/
theorem sepHere_eq_opAt :
    ∀ l : List Char,
      sepHere l = (opAt l).map
        (fun pr =>
          if (pr.1 = [':', '='] ∨ pr.1 = ['=']) ∧ pr.2.head? = some '@'
          then (pr.1 ++ ['@'], pr.2.tail) else pr) := by
  intro l
  match l with
  | [] => rfl
  | [c] =>
    by_cases hc1 : c = '='
    · subst hc1; rfl
    · by_cases hc2 : c = ':'
      · subst hc2; rfl
      · by_cases hc3 : c = '@'
        · subst hc3; rfl
        · simp [sepHere, opAt, matchPrefix, hc1, hc2, hc3]
  | c :: d :: r =>
    by_cases hc1 : c = '='
    · subst hc1
      by_cases hd1 : d = '='
      · subst hd1; rfl
      · by_cases hd2 : d = '@'
        · subst hd2; rfl
        · simp [sepHere, opAt, matchPrefix, hd1, hd2]
    · by_cases hc2 : c = ':'
      · subst hc2
        by_cases hd1 : d = '='
        · subst hd1
          by_cases hr : r.head? = some '@'
          · simp [sepHere, opAt, matchPrefix, hr]
          · simp [sepHere, opAt, matchPrefix, hr]
        · simp [sepHere, opAt, matchPrefix, hd1]
      · by_cases hc3 : c = '@'
        · subst hc3; rfl
        · simp [sepHere, opAt, matchPrefix, hc1, hc2, hc3]

/-- A `takeWhile` that excludes the newline is the identity on
newline-free strings. -/
theorem takeWhile_ne_nl :
    ∀ l : List Char, (∀ x ∈ l, x ≠ nl) → l.takeWhile (fun x => x != nl) = l := by
  intro l h
  induction l with
  | nil => rfl
  | cons c cs ih =>
    have hc : (c != nl) = true := by
      simpa [bne_iff_ne] using h c (by simp)
    rw [List.takeWhile_cons, hc]
    simp [ih (fun x hx => h x (by simp [hx]))]

/-- On newline-free input the code's scanner returns exactly the
specification's first split, with the `@` of file indirection folded into
the separator. -/
theorem scanSplit_eq_spec :
    ∀ (l acc : List Char), (∀ x ∈ l, x ≠ nl) →
      scanSplit acc l = (specFirstSplit acc l).map
        (fun t =>
          if (t.2.1 = [':', '='] ∨ t.2.1 = ['=']) ∧ t.2.2.head? = some '@'
          then (t.1, t.2.1 ++ ['@'], t.2.2.tail) else t) := by
  intro l
  induction l with
  | nil => intro acc _; rfl
  | cons c cs ih =>
    intro acc h
    have hc : c ≠ nl := h c (by simp)
    have hcs : ∀ x ∈ cs, x ≠ nl := fun x hx => h x (by simp [hx])
    rw [scanSplit, specFirstSplit, sepHere_eq_opAt]
    cases hop : opAt (c :: cs) with
    | none =>
      simp only [Option.map_none']
      rw [if_neg hc]
      exact ih _ hcs
    | some pr =>
      obtain ⟨op, rest⟩ := pr
      have hsub : ∀ x ∈ rest, x ∈ c :: cs := (opAt_cases _ _ _ hop).2
      simp only [Option.map_some']
      by_cases hcond : acc ≠ [] ∧ acc.getLast? ≠ some bslash
      · by_cases hind : (op = [':', '='] ∨ op = ['=']) ∧ rest.head? = some '@'
        · rw [if_pos hind]
          simp only []
          rw [if_pos hcond, if_pos hcond]
          have htail : ∀ x ∈ rest.tail, x ≠ nl := fun x hx =>
            h x (hsub x (List.mem_of_mem_tail hx))
          rw [takeWhile_ne_nl _ htail]
          simp only [Option.map_some']
          rw [if_pos hind]
        · rw [if_neg hind]
          simp only []
          rw [if_pos hcond, if_pos hcond]
          have hrest : ∀ x ∈ rest, x ≠ nl := fun x hx => h x (hsub x hx)
          rw [takeWhile_ne_nl _ hrest]
          simp only [Option.map_some']
          rw [if_neg hind]
      · by_cases hind : (op = [':', '='] ∨ op = ['=']) ∧ rest.head? = some '@'
        · rw [if_pos hind]
          simp only []
          rw [if_neg hcond, if_neg hcond, if_neg hc]
          exact ih _ hcs
        · rw [if_neg hind]
          simp only []
          rw [if_neg hcond, if_neg hcond, if_neg hc]
          exact ih _ hcs

/-- The operator of the specification's first split is always one of the
five table entries. -/
theorem specFirstSplit_shape :
    ∀ (l acc key op value : List Char),
      specFirstSplit acc l = some (key, op, value) →
      op = ['=', '='] ∨ op = [':', '='] ∨ op = [':'] ∨ op = ['='] ∨ op = ['@'] := by
  intro l
  induction l with
  | nil => intro acc key op value h; simp [specFirstSplit] at h
  | cons c cs ih =>
    intro acc key op value h
    rw [specFirstSplit] at h
    cases hop : opAt (c :: cs) with
    | none =>
      rw [hop] at h
      exact ih _ _ _ _ h
    | some pr =>
      obtain ⟨op0, rest0⟩ := pr
      rw [hop] at h
      simp only at h
      by_cases hcond : acc ≠ [] ∧ acc.getLast? ≠ some bslash
      · rw [if_pos hcond] at h
        simp only [Option.some.injEq, Prod.mk.injEq] at h
        exact h.2.1 ▸ (opAt_cases _ _ _ hop).1
      · rw [if_neg hcond] at h
        exact ih _ _ _ _ h

/-- The path, header and JSON transforms agree between the code's
`match variant` and the specification table, operator by operator. -/
theorem finishItem_eq_specTransform :
    ∀ (s key value : List Char) (op : List Char),
      op = ['=', '='] ∨ op = [':', '='] ∨ op = [':'] ∨ op = ['='] ∨ op = ['@'] →
      finishItem s key op value = specTransform s key op value := by
  intro s key value op h
  rcases h with h | h | h | h | h <;> subst h <;> rfl

/-- C1: on every newline-free token, `RequestItem::from_str` computes the
specification's grammar — the earliest unescaped occurrence of an operator
wins (table order `==`, `:=`, `:`, `=`, `@` breaking ties at one
position), `==` yields `SearchParam` verbatim, `:=` yields `JsonData`
through JSON parsing, `:` yields `Header` with validated name and value,
`=` yields `Data` verbatim, `@` yields `FormFile`, a token with no
operator yields `ParseError`, and `=`/`:=` followed by `@` divert through
file indirection. -/
theorem operatorTableParsing :
    ∀ (fs : List Char → Option (List Char)) (s : List Char),
      (∀ x ∈ s, x ≠ nl) → fromStr fs s = specParse fs s := by
  intro fs s h
  rw [fromStr, specParse, scanSplit_eq_spec s [] h]
  cases hsp : specFirstSplit [] s with
  | none => rfl
  | some t =>
    obtain ⟨key, op, value⟩ := t
    have hop5 := specFirstSplit_shape s [] key op value hsp
    simp only [Option.map_some']
    by_cases hind : (op = [':', '='] ∨ op = ['=']) ∧ value.head? = some '@'
    · rw [if_pos hind, if_pos hind]
      rcases hind.1 with hop | hop <;> subst hop
      · -- ":=" followed by '@': variant ":=@"
        simp only [List.cons_append, List.nil_append]
        rw [if_pos (by decide :
          ([':', '=', '@'] : List Char).length > 1 ∧
            ([':', '=', '@'] : List Char).getLast? = some '@')]
        by_cases hemp : value.tail = []
        · rw [if_pos hemp, if_pos hemp]
        · rw [if_neg hemp, if_neg hemp]
          cases hfs : fs value.tail with
          | none => rfl
          | some contents =>
            rw [show ([':', '=', '@'] : List Char).filter (fun c => c ≠ '@')
                = [':', '='] from by decide]
            exact finishItem_eq_specTransform s key contents [':', '=']
              (Or.inr (Or.inl rfl))
      · -- "=" followed by '@': variant "=@"
        simp only [List.cons_append, List.nil_append]
        rw [if_pos (by decide :
          (['=', '@'] : List Char).length > 1 ∧
            (['=', '@'] : List Char).getLast? = some '@')]
        by_cases hemp : value.tail = []
        · rw [if_pos hemp, if_pos hemp]
        · rw [if_neg hemp, if_neg hemp]
          cases hfs : fs value.tail with
          | none => rfl
          | some contents =>
            rw [show (['=', '@'] : List Char).filter (fun c => c ≠ '@')
                = ['='] from by decide]
            exact finishItem_eq_specTransform s key contents ['=']
              (Or.inr (Or.inr (Or.inr (Or.inl rfl))))
    · rw [if_neg hind, if_neg hind]
      rcases hop5 with hop | hop | hop | hop | hop <;> subst hop <;>
        first
        | (rw [if_neg (by decide :
              ¬((['=', '='] : List Char).length > 1 ∧
                (['=', '='] : List Char).getLast? = some '@'))]
           exact finishItem_eq_specTransform s key value ['=', '='] (Or.inl rfl))
        | (rw [if_neg (by decide :
              ¬(([':', '='] : List Char).length > 1 ∧
                ([':', '='] : List Char).getLast? = some '@'))]
           exact finishItem_eq_specTransform s key value [':', '=']
             (Or.inr (Or.inl rfl)))
        | (rw [if_neg (by decide :
              ¬(([':'] : List Char).length > 1 ∧
                ([':'] : List Char).getLast? = some '@'))]
           exact finishItem_eq_specTransform s key value [':']
             (Or.inr (Or.inr (Or.inl rfl))))
        | (rw [if_neg (by decide :
              ¬((['='] : List Char).length > 1 ∧
                (['='] : List Char).getLast? = some '@'))]
           exact finishItem_eq_specTransform s key value ['=']
             (Or.inr (Or.inr (Or.inr (Or.inl rfl)))))
        | (rw [if_neg (by decide :
              ¬((['@'] : List Char).length > 1 ∧
                (['@'] : List Char).getLast? = some '@'))]
           exact finishItem_eq_specTransform s key value ['@']
             (Or.inr (Or.inr (Or.inr (Or.inr rfl)))))

/-- C1 counterexample: the regex metacharacter `.` does not cross
newlines, so on tokens containing a newline the parse is not the claimed
verbatim split — `a=b\nc` yields `Data` with value `b` (truncated at the
newline, not the verbatim `b\nc`), and `a\nb=c` yields key `b` (the key
is confined to the operator's line, not the full prefix `a\nb`). -/
theorem newlineBreaksVerbatimCapture :
    fromStr (fun _ => none) "a=b\nc".toList = .ok (.Data "a".toList "b".toList)
    ∧ ("b".toList == "b\nc".toList) = false
    ∧ fromStr (fun _ => none) "a\nb=c".toList = .ok (.Data "b".toList "c".toList)
    ∧ ("b".toList == "a\nb".toList) = false :=
  ⟨rfl, by decide, rfl, by decide⟩

/-- Witness for C1 at the concrete token `age:=30`. -/
theorem operatorTableParsing_witness :
    (∀ x ∈ "age:=30".toList, x ≠ nl)
    ∧ fromStr (fun _ => none) "age:=30".toList
        = specParse (fun _ => none) "age:=30".toList :=
  ⟨by decide, operatorTableParsing (fun _ => none) "age:=30".toList (by decide)⟩

/-! ## C3 — file indirection -/

/-- C3: when the scanner recognizes a file-indirection separator (`:=@`
or `=@`): an empty path yields `MissingFileInputError` for every
filesystem (so before any file access); an unreadable file yields
`IOError` carrying the path; a readable file's full contents replace the
literal value before the per-operator transform — `:=@` parses the
contents as JSON, `=@` uses them as the plain `Data` value. -/
theorem fileIndirection :
    ∀ (fs : List Char → Option (List Char)) (s key variant value : List Char),
      scanSplit [] s = some (key, variant, value) →
      (variant = [':', '=', '@'] ∨ variant = ['=', '@']) →
      ((value = [] →
          ∀ fs2 : List Char → Option (List Char),
            fromStr fs2 s = .error (.MissingFileInputError value))
        ∧ (value ≠ [] → fs value = none → fromStr fs s = .error (.IOError value))
        ∧ (value ≠ [] → ∀ contents, fs value = some contents →
            fromStr fs s =
              if variant = [':', '=', '@'] then
                match Json.parse contents with
                | some v => .ok (.JsonData key v)
                | none => .error (.ParseError s)
              else .ok (.Data key contents))) := by
  intro fs s key variant value hscan hvar
  rcases hvar with hv | hv <;> subst hv
  · refine ⟨?_, ?_, ?_⟩
    · intro hemp fs2
      rw [fromStr, hscan]
      simp only []
      rw [if_pos (by decide :
        ([':', '=', '@'] : List Char).length > 1 ∧
          ([':', '=', '@'] : List Char).getLast? = some '@'), if_pos hemp]
    · intro hemp hio
      rw [fromStr, hscan]
      simp only []
      rw [if_pos (by decide :
        ([':', '=', '@'] : List Char).length > 1 ∧
          ([':', '=', '@'] : List Char).getLast? = some '@'), if_neg hemp, hio]
    · intro hemp contents hfs
      rw [fromStr, hscan]
      simp only []
      rw [if_pos (by decide :
        ([':', '=', '@'] : List Char).length > 1 ∧
          ([':', '=', '@'] : List Char).getLast? = some '@'), if_neg hemp, hfs]
      rw [show ([':', '=', '@'] : List Char).filter (fun c => c ≠ '@')
          = [':', '='] from by decide]
      rfl
  · refine ⟨?_, ?_, ?_⟩
    · intro hemp fs2
      rw [fromStr, hscan]
      simp only []
      rw [if_pos (by decide :
        (['=', '@'] : List Char).length > 1 ∧
          (['=', '@'] : List Char).getLast? = some '@'), if_pos hemp]
    · intro hemp hio
      rw [fromStr, hscan]
      simp only []
      rw [if_pos (by decide :
        (['=', '@'] : List Char).length > 1 ∧
          (['=', '@'] : List Char).getLast? = some '@'), if_neg hemp, hio]
    · intro hemp contents hfs
      rw [fromStr, hscan]
      simp only []
      rw [if_pos (by decide :
        (['=', '@'] : List Char).length > 1 ∧
          (['=', '@'] : List Char).getLast? = some '@'), if_neg hemp, hfs]
      rw [show (['=', '@'] : List Char).filter (fun c => c ≠ '@')
          = ['='] from by decide]
      rfl

/-- The example filesystem of the specification's §8: `./body.json`
contains `{"a":1}`. -/
def fsBodyJson : List Char → Option (List Char) :=
  fun p => if p = "./body.json".toList then some "\x7b\"a\":1\x7d".toList else none

/-- Witness for C3 at the specification's example
`payload:=@./body.json`: the hypotheses hold concretely and the parse
produces the JSON object `{a: 1}`. -/
theorem fileIndirection_witness :
    scanSplit [] "payload:=@./body.json".toList
      = some ("payload".toList, [':', '=', '@'], "./body.json".toList)
    ∧ fsBodyJson "./body.json".toList = some "\x7b\"a\":1\x7d".toList
    ∧ fromStr fsBodyJson "payload:=@./body.json".toList
      = .ok (.JsonData "payload".toList (.Object [("a".toList, .Number 1)])) := by
  refine ⟨rfl, rfl, ?_⟩
  have h := (fileIndirection fsBodyJson "payload:=@./body.json".toList
    "payload".toList [':', '=', '@'] "./body.json".toList rfl (Or.inl rfl)).2.2
    (by decide) "\x7b\"a\":1\x7d".toList rfl
  rw [h]
  rfl

end Rurl
